import Mathlib

/-!
A verification development for the point-of-sale / inventory application
(`models.py`, `app.py`, `utils.py`): a shallow embedding of its data model and
of the operations relevant to its documented invariants, followed by theorems
settling those invariants.

Modelling conventions:
* SQLite `REAL` money amounts are embedded as `ℚ` (exact arithmetic on the
  decimal literals the code manipulates).
* `sale_date` / `return_date` values are embedded as `Nat` day indices; the SQL
  `DATE(x) BETWEEN a AND b` filter becomes a closed interval test on `Nat`.
* `bill_identifier` is stored as `str(next_bill_no)` in the database; since
  `str` is injective on the integers produced by the sequence generator, it is
  embedded as the `Nat` itself.
* A table is a `List` of rows; `UPDATE ... WHERE` maps over the list, touching
  every row matching the predicate, exactly as SQL does.
* A Python value read from a dynamically-typed tuple slot is embedded as
  `PyVal`; arithmetic on a `str` slot is a `TypeError`, i.e. `none`.
-/

/-- A dynamically typed Python value, as read from a `sqlite3` row tuple. -/
inductive PyVal where
  | str (s : String)
  | num (q : ℚ)
deriving DecidableEq

/-- Python `v / 100`: succeeds on a number, raises `TypeError` on a string. -/
def PyVal.divByHundred : PyVal → Option ℚ
  | .num q => some (q / 100)
  | .str _ => none

/-- Row of the `products` table (`models.py`, `init_db`). -/
structure Product where
  id : Nat
  name : String
  cost_price : ℚ
  selling_price : ℚ
  quantity : Int
  category_id : Option Nat
  barcode : String
deriving DecidableEq

/-- Row of the `sales` table (`models.py`, `init_db`). -/
structure SaleLine where
  bill_identifier : Nat
  product_id : Nat
  quantity : Nat
  sale_price : ℚ
  sale_date : Nat
  user_id : Option Nat
  discount_applied_to_bill : ℚ
  payment_method : String
deriving DecidableEq

/-- Row of the `returns` table (`models.py`, `init_db`). -/
structure ReturnLine where
  product_id : Nat
  quantity : Int
  return_price : ℚ
  return_date : Nat
  reason : Option String
  original_bill_identifier : Option Nat
deriving DecidableEq

/-- Row of the `discounts` table (`models.py`, `init_db`): column order is
`(id, name, discount_type, value)`, with `discount_type` a TEXT column
constrained to `percentage` or `fixed`. -/
structure Discount where
  id : Nat
  name : String
  discount_type : String
  value : ℚ
deriving DecidableEq

/-- `get_discount` returns the row as the Python tuple
`(id, name, discount_type, value)`; index `2` of that tuple is the TEXT
column `discount_type`. -/
def Discount.idx2 (d : Discount) : PyVal := .str d.discount_type

/-- The database state: the tables the claims are about, plus the single-row
`bill_sequence` counter (`none` models the row being absent) and the ids of
the `categories` table. -/
structure DB where
  products : List Product
  sales : List SaleLine
  returns : List ReturnLine
  bill_sequence : Option Nat
  categories : List Nat
deriving DecidableEq

/-- Where, if anywhere, a database error strikes inside
`get_next_bill_number`. -/
inductive DbOutcome where
  | ok
  | failEarly
  | failLate
deriving DecidableEq

/-- `models.py`, `get_next_bill_number`: under `BEGIN IMMEDIATE`, read
`last_bill_no`, set it to `last + 1` (or insert `1` if the row is missing) and
commit, returning the new value.  On a `sqlite3.Error` the transaction is
rolled back and the function falls back to returning the local `next_bill_no`:
`1` if the error struck before the `SELECT` (`failEarly`), the already-computed
`last + 1` if it struck at the write or commit (`failLate`). -/
def get_next_bill_number (s : Option Nat) : DbOutcome → Nat × Option Nat
  | .failEarly => (1, s)
  | .failLate => ((match s with | some last => last + 1 | none => 1), s)
  | .ok =>
    match s with
    | some last => (last + 1, some (last + 1))
    | none => (1, some 1)

/-- One line of the session cart (`app.py`, `billing`): built by the add-to-cart
actions as `{'id', 'barcode', 'name', 'price', 'qty'}`. -/
structure CartItem where
  id : Nat
  barcode : String
  name : String
  price : ℚ
  qty : Nat
deriving DecidableEq

/-- `UPDATE products SET quantity = quantity + delta WHERE id = pid`:
every row matching the predicate is updated. -/
def updateQty (products : List Product) (pid : Nat) (delta : Int) : List Product :=
  products.map (fun p => if p.id = pid then { p with quantity := p.quantity + delta } else p)

/-- The quantity column of the (first) `products` row with the given id,
`0` if the row is absent. -/
def stockOf (products : List Product) (pid : Nat) : Int :=
  match products.find? (fun p => p.id = pid) with
  | some p => p.quantity
  | none => 0

/-- The per-line loop of the checkout transaction (`app.py`, `billing`,
`checkout_and_print` branch): for each cart item, re-read the product's stock,
abort if the product is missing or its stock is below the requested quantity,
otherwise record the sale line — attaching the bill-level discount amount to
the first line only (`i == 0`) — and decrement the stock.  Returns `none` on
abort (the enclosing transaction rolls back) and otherwise the updated
products table together with the inserted sale lines. -/
def processLines (products : List Product) (cart : List CartItem) (billNo : Nat)
    (discAmt : ℚ) (saleTime : Nat) (userId : Option Nat) (pm : String) (first : Bool) :
    Option (List Product × List SaleLine) :=
  match cart with
  | [] => some (products, [])
  | item :: rest =>
    match products.find? (fun p => p.id = item.id) with
    | none => none
    | some p =>
      if p.quantity < (item.qty : Int) then none
      else
        match processLines (updateQty products item.id (-(item.qty : Int))) rest billNo
            discAmt saleTime userId pm false with
        | none => none
        | some (ps, ls) =>
          some (ps, ⟨billNo, item.id, item.qty, item.price, saleTime, userId,
                     if first then discAmt else 0, pm⟩ :: ls)

/-- The sequential stock check of the checkout loop in isolation: `true` iff
some cart line's requested quantity exceeds the product's stock at the time of
its check (stock as already decremented by the earlier lines of the same
transaction), or the product row is missing. -/
def checkFails (products : List Product) (cart : List CartItem) : Bool :=
  match cart with
  | [] => false
  | item :: rest =>
    match products.find? (fun p => p.id = item.id) with
    | none => true
    | some p =>
      decide (p.quantity < (item.qty : Int)) ||
        checkFails (updateQty products item.id (-(item.qty : Int))) rest

/-- `app.py`, `billing`, discount amount for the bill: if a discount is
applied, the code computes
`bill_total_gross * (disc_details_tuple[2] / 100)` — tuple index `2` being the
TEXT `discount_type` column, so the division raises `TypeError` (`none`). -/
def computeBillDiscount (gross : ℚ) (disc : Option Discount) : Option ℚ :=
  match disc with
  | none => some 0
  | some d => d.idx2.divByHundred.map (fun x => gross * x)

/-- The `checkout_and_print` action of `app.py`, `billing`: reject an empty
cart and a missing payment method; compute the gross total and the bill
discount amount (a raised `TypeError` there is caught by the surrounding
handler, leaving the database untouched); draw the next bill number (its own
transaction, whose outcome is `draw` — `get_next_bill_number` never raises, so
even after an internal error the checkout proceeds with the fallback number);
then run the per-line loop in one transaction, committing all lines or rolling
all of them back.  Returns the resulting database state and whether the sale
committed. -/
def billing_checkout (db : DB) (cart : List CartItem) (disc : Option Discount)
    (pm : String) (saleTime : Nat) (userId : Option Nat) (draw : DbOutcome) : DB × Bool :=
  if cart.isEmpty then (db, false)
  else if pm = "" then (db, false)
  else
    let gross := (cart.map (fun i => i.price * (i.qty : ℚ))).sum
    match computeBillDiscount gross disc with
    | none => (db, false)
    | some discAmt =>
      let res := get_next_bill_number db.bill_sequence draw
      let db1 := { db with bill_sequence := res.2 }
      match processLines db.products cart res.1 discAmt saleTime userId pm true with
      | none => (db1, false)
      | some (ps, ls) => ({ db1 with products := ps, sales := db.sales ++ ls }, true)

/-- The POST branch of `app.py`, `return_order`: validate that the product
exists, the quantity is positive and the refund price nonnegative; then, in one
transaction, insert the return record and increment the product's stock.
`dbError = true` models a `sqlite3.Error` inside that transaction: it is
rolled back, so neither write persists.  Returns the resulting state and
whether the return committed. -/
def return_order (db : DB) (pid : Nat) (q : Int) (price : ℚ) (reason : Option String)
    (obill : Option Nat) (date : Nat) (dbError : Bool) : DB × Bool :=
  if (db.products.find? (fun p => p.id = pid)).isNone then (db, false)
  else if q ≤ 0 then (db, false)
  else if price < 0 then (db, false)
  else if dbError then (db, false)
  else ({ db with
            returns := db.returns ++ [⟨pid, q, price, date, reason, obill⟩],
            products := updateQty db.products pid q }, true)

/-- `app.py`, `delete_product`: look the product up; count its `sales` and
`returns` rows; refuse the deletion when either count is positive, otherwise
delete the row. -/
def delete_product (db : DB) (pid : Nat) : DB :=
  match db.products.find? (fun p => p.id = pid) with
  | none => db
  | some _ =>
    let sales_count := db.sales.countP (fun s => s.product_id = pid)
    let returns_count := db.returns.countP (fun r => r.product_id = pid)
    if 0 < sales_count ∨ 0 < returns_count then db
    else { db with products := db.products.filter (fun p => ¬ p.id = pid) }

/-- The next `AUTOINCREMENT` id for the products table. -/
def nextProductId (products : List Product) : Nat :=
  (products.map (fun p => p.id)).foldr max 0 + 1

/-- The POST branch of `app.py`, `add_product`: validations — nonempty name,
nonnegative cost price, selling price and quantity, an existing category, and
a barcode not already present — and on success a single insert.  The barcode
string itself (auto-generated by `get_next_barcode` when the field is left
blank) is taken as an input here; only its uniqueness check is part of the
transition. -/
def add_product (db : DB) (name : String) (cost sell : ℚ) (qty : Int)
    (catId : Option Nat) (bc : String) : DB × Bool :=
  if name = "" then (db, false)
  else if cost < 0 then (db, false)
  else if sell < 0 then (db, false)
  else if qty < 0 then (db, false)
  else
    match catId with
    | none => (db, false)
    | some c =>
      if c ∈ db.categories then
        if db.products.any (fun p => p.barcode = bc) then (db, false)
        else ({ db with products :=
                 db.products ++ [⟨nextProductId db.products, name, cost, sell, qty, some c, bc⟩] },
              true)
      else (db, false)

/-- The POST branch of `app.py`, `edit_product`: same field validations as
`add_product` (no barcode change), then
`UPDATE products SET name, cost_price, selling_price, quantity, category_id
WHERE id = pid`. -/
def edit_product (db : DB) (pid : Nat) (name : String) (cost sell : ℚ) (qty : Int)
    (catId : Option Nat) : DB × Bool :=
  if name = "" then (db, false)
  else if cost < 0 then (db, false)
  else if sell < 0 then (db, false)
  else if qty < 0 then (db, false)
  else
    match catId with
    | none => (db, false)
    | some c =>
      if c ∈ db.categories then
        ({ db with products := db.products.map (fun p =>
            if p.id = pid then
              { p with
                  name := name,
                  cost_price := cost,
                  selling_price := sell,
                  quantity := qty,
                  category_id := some c }
            else p) }, true)
      else (db, false)

/-- `app.py`, `add_category` (INSERT into `categories`); only the id matters
to the claims. -/
def add_category (db : DB) (cid : Nat) : DB :=
  if cid ∈ db.categories then db else { db with categories := db.categories ++ [cid] }

/-- One user-level mutation of the store, with the request parameters (and,
for fallible transactions, the storage outcome) baked in. -/
inductive Op where
  | checkout (cart : List CartItem) (disc : Option Discount) (pm : String)
      (saleTime : Nat) (userId : Option Nat) (draw : DbOutcome)
  | ret (pid : Nat) (q : Int) (price : ℚ) (reason : Option String)
      (obill : Option Nat) (date : Nat) (dbError : Bool)
  | addP (name : String) (cost sell : ℚ) (qty : Int) (catId : Option Nat) (bc : String)
  | editP (pid : Nat) (name : String) (cost sell : ℚ) (qty : Int) (catId : Option Nat)
  | delP (pid : Nat)
  | addCat (cid : Nat)

/-- Apply one operation to the database. -/
def applyOp (db : DB) : Op → DB
  | .checkout cart disc pm t uid draw => (billing_checkout db cart disc pm t uid draw).1
  | .ret pid q price reason obill date e => (return_order db pid q price reason obill date e).1
  | .addP name cost sell qty catId bc => (add_product db name cost sell qty catId bc).1
  | .editP pid name cost sell qty catId => (edit_product db pid name cost sell qty catId).1
  | .delP pid => delete_product db pid
  | .addCat cid => add_category db cid

/-- Apply a sequence of operations. -/
def applyOps (db : DB) (ops : List Op) : DB := ops.foldl applyOp db

/-- Every product row's quantity on hand is nonnegative. -/
def stockNonneg (db : DB) : Prop := ∀ p ∈ db.products, 0 ≤ p.quantity

instance (db : DB) : Decidable (stockNonneg db) := by
  unfold stockNonneg; infer_instance

/-- The product ids (primary keys) are pairwise distinct. -/
def idsNodup (db : DB) : Prop := (db.products.map (fun p => p.id)).Nodup

instance (db : DB) : Decidable (idsNodup db) := by
  unfold idsNodup; infer_instance

/-- `app.py`, `billing`, add-to-cart (`add_scan` / `add_manual`, both share
this code): `next(item for item in cart if item['id'] == product['id'])`
followed by `item_found['qty'] += 1` — increment the first matching entry. -/
def incFirstQty : List CartItem → Nat → List CartItem
  | [], _ => []
  | i :: rest, pid =>
    if i.id = pid then { i with qty := i.qty + 1 } :: rest
    else i :: incFirstQty rest pid

/-- Add a product to the session cart: bump the existing entry's quantity if
the product id is already present, otherwise append a fresh entry with
quantity 1. -/
def cart_add (cart : List CartItem) (pid : Nat) (bc name : String) (price : ℚ) :
    List CartItem :=
  if cart.any (fun i => i.id = pid) then incFirstQty cart pid
  else cart ++ [⟨pid, bc, name, price, 1⟩]

/-- `app.py`, `increase_cart_item`: on the first entry matching the id,
increment its quantity if the product's current stock exceeds the cart
quantity (`stock` is the looked-up `products.quantity`, `none` when the row is
missing); otherwise leave the cart as it is. -/
def increase_cart_item (cart : List CartItem) (pid : Nat) (stock : Option Int) :
    List CartItem :=
  match cart with
  | [] => []
  | i :: rest =>
    if i.id = pid then
      match stock with
      | some s => if (i.qty : Int) < s then { i with qty := i.qty + 1 } :: rest else i :: rest
      | none => i :: rest
    else i :: increase_cart_item rest pid stock

/-- `app.py`, `decrease_cart_item`: on the first entry matching the id,
decrement its quantity and drop the entry when the result is not positive. -/
def decrease_cart_item (cart : List CartItem) (pid : Nat) : List CartItem :=
  match cart with
  | [] => []
  | i :: rest =>
    if i.id = pid then
      if i.qty ≤ 1 then rest else { i with qty := i.qty - 1 } :: rest
    else i :: decrease_cart_item rest pid

/-- `app.py`, `remove_cart_item`: keep every entry whose id differs. -/
def remove_cart_item (cart : List CartItem) (pid : Nat) : List CartItem :=
  cart.filter (fun i => ¬ i.id = pid)

/-- One session-cart mutation, with its request parameters baked in. -/
inductive CartOp where
  | add (pid : Nat) (bc name : String) (price : ℚ)
  | inc (pid : Nat) (stock : Option Int)
  | dec (pid : Nat)
  | rem (pid : Nat)
  | clear

/-- Apply one cart operation. -/
def applyCartOp (cart : List CartItem) : CartOp → List CartItem
  | .add pid bc name price => cart_add cart pid bc name price
  | .inc pid stock => increase_cart_item cart pid stock
  | .dec pid => decrease_cart_item cart pid
  | .rem pid => remove_cart_item cart pid
  | .clear => []

/-- The `DATE(x) BETWEEN from AND to` filter of the analytics queries. -/
def inRange (lo hi d : Nat) : Bool := decide (lo ≤ d) && decide (d ≤ hi)

/-- `utils.py`, `get_custom_range_analytics`, query 1:
`SELECT SUM(s.quantity * s.sale_price) FROM sales s WHERE DATE(s.sale_date)
BETWEEN ? AND ?` (`NULL` on an empty range reads back as `0.0`). -/
def total_gross_sales (sales : List SaleLine) (lo hi : Nat) : ℚ :=
  ((sales.filter (fun s => inRange lo hi s.sale_date)).map
    (fun s => (s.quantity : ℚ) * s.sale_price)).sum

/-- `utils.py`, `get_custom_range_analytics`, query 2: the sum of
`discount_amount` over `SELECT DISTINCT s.bill_identifier,
s.discount_applied_to_bill FROM sales s WHERE DATE(s.sale_date) BETWEEN ? AND ?
AND s.discount_applied_to_bill > 0`. -/
def total_discounts_on_bills (sales : List SaleLine) (lo hi : Nat) : ℚ :=
  (((sales.filter (fun s =>
      inRange lo hi s.sale_date && decide (0 < s.discount_applied_to_bill))).map
    (fun s => (s.bill_identifier, s.discount_applied_to_bill))).dedup.map
      (fun x => x.2)).sum

/-- `utils.py`, `get_custom_range_analytics`, query 3:
`SELECT SUM(r.quantity * r.return_price) FROM returns r WHERE
DATE(r.return_date) BETWEEN ? AND ?`. -/
def total_returns_value (rets : List ReturnLine) (lo hi : Nat) : ℚ :=
  ((rets.filter (fun r => inRange lo hi r.return_date)).map
    (fun r => (r.quantity : ℚ) * r.return_price)).sum

/-- `utils.py`, `get_custom_range_analytics`, step 4:
`total_net_sales = total_gross_sales - total_discounts_on_bills -
total_returns_value`. -/
def total_net_sales (sales : List SaleLine) (rets : List ReturnLine) (lo hi : Nat) : ℚ :=
  total_gross_sales sales lo hi - total_discounts_on_bills sales lo hi -
    total_returns_value rets lo hi

/-- Written from the spec's words, for comparison with
`total_discounts_on_bills`: the bill-level discount amount recorded for a
bill — the sum of the `discount_applied_to_bill` figures over that bill's
sale lines. -/
def spec_bill_discount (sales : List SaleLine) (b : Nat) : ℚ :=
  ((sales.filter (fun s => s.bill_identifier = b)).map
    (fun s => s.discount_applied_to_bill)).sum

/-- Written from the spec's words, for comparison with
`total_discounts_on_bills`: the sum, over the distinct bill identifiers with
sales in the range, of the bill-level discount amount recorded for that
bill. -/
def spec_total_discounts (sales : List SaleLine) (lo hi : Nat) : ℚ :=
  ((((sales.filter (fun s => inRange lo hi s.sale_date)).map
      (fun s => s.bill_identifier)).dedup).map
    (fun b => spec_bill_discount sales b)).sum

/-- The stream of values returned by successive calls of
`get_next_bill_number`, starting from counter state `s`, one call per entry of
`outcomes` (each entry telling whether that call committed or where a database
error struck it). -/
def bill_numbers_along (s : Option Nat) : List DbOutcome → List Nat
  | [] => []
  | o :: os =>
    let r := get_next_bill_number s o
    r.1 :: bill_numbers_along r.2 os

/-! ## Sequence generator (claims C2, C6) -/

theorem bill_numbers_along_ok_closed_form (outcomes : List DbOutcome) (k : Nat)
    (h : ∀ o ∈ outcomes, o = DbOutcome.ok) :
    bill_numbers_along (some k) outcomes =
      (List.range outcomes.length).map (fun i => k + 1 + i) := by
  induction outcomes generalizing k with
  | nil => simp [bill_numbers_along]
  | cons o os ih =>
    have ho : o = DbOutcome.ok := h o (List.mem_cons_self o os)
    subst ho
    rw [bill_numbers_along]
    show (k + 1) :: bill_numbers_along (some (k + 1)) os = _
    rw [ih (k + 1) (fun o ho => h o (List.mem_cons_of_mem _ ho)), List.length_cons,
      List.range_succ_eq_map, List.map_cons, List.map_map]
    refine congrArg₂ _ (by omega) (List.map_congr_left ?_)
    intro a _
    simp [Nat.succ_eq_add_one]
    omega

/-- C2 counterexample: on a fresh store (counter initialized to `0`), the
three-call sequence commit / fail-at-the-write / commit returns the values
`[1, 2, 2]`: the failing second call falls back to returning `2` without
advancing the counter, and the third call receives `2` again.  Two calls
receive the same value, and the returned values are neither pairwise distinct
nor strictly increasing — the claim fails as stated. -/
theorem duplicate_bill_numbers_after_failed_call :
    bill_numbers_along (some 0) [.ok, .failLate, .ok] = [1, 2, 2] ∧
    ¬ (bill_numbers_along (some 0) [.ok, .failLate, .ok]).Nodup ∧
    ¬ (bill_numbers_along (some 0) [.ok, .failLate, .ok]).Pairwise (· < ·) := by
  refine ⟨rfl, by decide, by decide⟩

/-- C2 (amended): over every sequence of calls of `get_next_bill_number` in
which each call commits, the returned values are the consecutive integers
`1..N`: strictly increasing, pairwise distinct, and the first number issued on
a fresh store (counter row initialized to `0` by `init_db`) is `1`.  A call
that hits a database error, however, returns a fallback number without
advancing the counter, and a later call can receive that same value — see the
counterexample. -/
theorem bill_numbers_committed_distinct_increasing (outcomes : List DbOutcome)
    (h : ∀ o ∈ outcomes, o = DbOutcome.ok) :
    bill_numbers_along (some 0) outcomes =
      (List.range outcomes.length).map (fun i => i + 1) ∧
    (bill_numbers_along (some 0) outcomes).Pairwise (· < ·) ∧
    (bill_numbers_along (some 0) outcomes).Nodup ∧
    (bill_numbers_along (some 0) outcomes).head? =
      if outcomes.length = 0 then none else some 1 := by
  have hcf := bill_numbers_along_ok_closed_form outcomes 0 h
  have heq : bill_numbers_along (some 0) outcomes =
      (List.range outcomes.length).map (fun i => i + 1) := by
    rw [hcf]; exact List.map_congr_left (fun a _ => by omega)
  have hpw : (bill_numbers_along (some 0) outcomes).Pairwise (· < ·) := by
    rw [heq, List.pairwise_map]
    exact (List.pairwise_lt_range outcomes.length).imp (by omega)
  refine ⟨heq, hpw, hpw.imp Nat.ne_of_lt, ?_⟩
  cases hn : outcomes.length with
  | zero =>
    rw [List.length_eq_zero] at hn
    subst hn
    simp [bill_numbers_along]
  | succ m => rw [heq, hn, List.range_succ_eq_map]; simp

theorem bill_numbers_committed_distinct_increasing_witness :
    (∀ o ∈ [DbOutcome.ok, DbOutcome.ok, DbOutcome.ok], o = DbOutcome.ok) ∧
    (bill_numbers_along (some 0) [DbOutcome.ok, DbOutcome.ok, DbOutcome.ok] =
        (List.range [DbOutcome.ok, DbOutcome.ok, DbOutcome.ok].length).map
          (fun i => i + 1) ∧
      (bill_numbers_along (some 0) [DbOutcome.ok, DbOutcome.ok, DbOutcome.ok]).Pairwise
        (· < ·) ∧
      (bill_numbers_along (some 0) [DbOutcome.ok, DbOutcome.ok, DbOutcome.ok]).Nodup ∧
      (bill_numbers_along (some 0) [DbOutcome.ok, DbOutcome.ok, DbOutcome.ok]).head? =
        if [DbOutcome.ok, DbOutcome.ok, DbOutcome.ok].length = 0 then none
        else some 1) :=
  ⟨by decide,
    bill_numbers_committed_distinct_increasing [DbOutcome.ok, DbOutcome.ok, DbOutcome.ok]
      (by decide)⟩

/-- C6 counterexample: with the counter at `5`, a call that hits a database
error at the write is rolled back (the counter stays at `5`) but still hands
its caller the number `6` — and the next successful call issues `6` again, so
the failing call does hand out a number a later caller also receives,
contradicting the claim. -/
theorem failing_call_still_returns_a_number :
    (get_next_bill_number (some 5) .failLate).1 = 6 ∧
    (get_next_bill_number (some 5) .failLate).2 = some 5 ∧
    (get_next_bill_number ((get_next_bill_number (some 5) .failLate).2) .ok).1 = 6 := by
  decide

/-- C6 (amended): if `get_next_bill_number` hits a write or lock error, the
transaction is rolled back, so no partial increment of the counter persists;
but the call does not fail — it returns a fallback number (`1` if the error
struck before the counter was read, otherwise the computed `last + 1`, the
very number the next successful call issues), so the caller may receive a
number that a later caller also receives. -/
theorem get_next_bill_number_failure_behavior (s : Option Nat) (o : DbOutcome)
    (h : ¬ o = DbOutcome.ok) :
    (get_next_bill_number s o).2 = s ∧
    ((get_next_bill_number s o).1 = 1 ∨
      (get_next_bill_number s o).1 = (get_next_bill_number s .ok).1) := by
  cases o with
  | ok => exact absurd rfl h
  | failEarly => exact ⟨rfl, Or.inl rfl⟩
  | failLate =>
    refine ⟨rfl, Or.inr ?_⟩
    cases s <;> rfl

theorem get_next_bill_number_failure_behavior_witness :
    ¬ (DbOutcome.failLate = DbOutcome.ok) ∧
    ((get_next_bill_number (some 5) .failLate).2 = some 5 ∧
      ((get_next_bill_number (some 5) .failLate).1 = 1 ∨
        (get_next_bill_number (some 5) .failLate).1 =
          (get_next_bill_number (some 5) .ok).1)) :=
  ⟨by decide, get_next_bill_number_failure_behavior (some 5) .failLate (by decide)⟩

/-! ## Checkout transaction (claims C1, C4) -/

theorem processLines_eq_none_iff (cart : List CartItem) (products : List Product)
    (billNo : Nat) (discAmt : ℚ) (t : Nat) (uid : Option Nat) (pm : String) (first : Bool) :
    processLines products cart billNo discAmt t uid pm first = none ↔
      checkFails products cart = true := by
  induction cart generalizing products first with
  | nil => simp [processLines, checkFails]
  | cons item rest ih =>
    rw [processLines, checkFails]
    cases hf : products.find? (fun p => p.id = item.id) with
    | none => simp
    | some p =>
      by_cases hq : p.quantity < (item.qty : Int)
      · simp [hq]
      · simp only [if_neg hq, decide_eq_true_eq, Bool.or_eq_true, decide_eq_true_iff]
        rw [← ih (updateQty products item.id (-(item.qty : Int))) false]
        cases processLines (updateQty products item.id (-(item.qty : Int))) rest billNo
            discAmt t uid pm false <;> simp [hq]

/-- C1: if some cart line's requested quantity exceeds the product's stock at
the time of its check, the checkout commits no sale line and changes no
product quantity — the transaction rolls back, leaving the `sales` and
`products` tables exactly as before the attempt (only the separately committed
bill counter may have advanced). -/
theorem checkout_insufficient_stock_rolls_back (db : DB) (cart : List CartItem)
    (disc : Option Discount) (pm : String) (t : Nat) (uid : Option Nat) (draw : DbOutcome)
    (h : checkFails db.products cart = true) :
    (billing_checkout db cart disc pm t uid draw).1.sales = db.sales ∧
    (billing_checkout db cart disc pm t uid draw).1.products = db.products := by
  unfold billing_checkout
  by_cases hc : cart.isEmpty
  · simp [hc]
  · simp only [if_neg hc]
    by_cases hpm : pm = ""
    · simp [hpm]
    · simp only [if_neg hpm]
      cases hd : computeBillDiscount ((cart.map (fun i => i.price * (i.qty : ℚ))).sum) disc with
      | none => exact ⟨rfl, rfl⟩
      | some amt =>
        have hnone := (processLines_eq_none_iff cart db.products
          (get_next_bill_number db.bill_sequence draw).1 amt t uid pm true).mpr h
        simp only [hnone]
        trivial

/-- Store fixture for the witnesses: one product `Widget`, stock `5`,
selling price `10`, fresh counter, one category. -/
def widgetProduct : Product := ⟨1, "Widget", 5, 10, 5, some 1, "100000000001"⟩

def widgetStore : DB := ⟨[widgetProduct], [], [], some 0, [1]⟩

/-- A cart asking for 9 widgets — more than the 5 in stock. -/
def oversizedCart : List CartItem := [⟨1, "100000000001", "Widget", 10, 9⟩]

theorem checkout_insufficient_stock_rolls_back_witness :
    checkFails widgetStore.products oversizedCart = true ∧
    ((billing_checkout widgetStore oversizedCart none "Cash" 3 none .ok).1.sales =
        widgetStore.sales ∧
      (billing_checkout widgetStore oversizedCart none "Cash" 3 none .ok).1.products =
        widgetStore.products) :=
  ⟨by decide,
    checkout_insufficient_stock_rolls_back widgetStore oversizedCart none "Cash" 3 none .ok
      (by decide)⟩

theorem find?_updateQty (products : List Product) (pid : Nat) (delta : Int) (pid' : Nat) :
    (updateQty products pid delta).find? (fun p => p.id = pid') =
      (products.find? (fun p => p.id = pid')).map
        (fun p => if p.id = pid then { p with quantity := p.quantity + delta } else p) := by
  have hf : ((fun q : Product => decide (q.id = pid')) ∘
      (fun p => if p.id = pid then { p with quantity := p.quantity + delta } else p)) =
      (fun q : Product => decide (q.id = pid')) := by
    funext q
    by_cases h2 : q.id = pid <;> simp [h2]
  unfold updateQty
  rw [List.find?_map, hf]

theorem stockOf_updateQty_ne (products : List Product) (pid delta : _) (pid' : Nat)
    (h : ¬ pid' = pid) :
    stockOf (updateQty products pid delta) pid' = stockOf products pid' := by
  unfold stockOf
  rw [find?_updateQty]
  cases hf : products.find? (fun p => p.id = pid') with
  | none => rfl
  | some p =>
    have hp : p.id = pid' := by simpa using List.find?_some hf
    simp [hp, h]

theorem stockOf_updateQty_self (products : List Product) (pid : Nat) (delta : Int)
    (h : (products.find? (fun p => p.id = pid)).isSome = true) :
    stockOf (updateQty products pid delta) pid = stockOf products pid + delta := by
  unfold stockOf
  rw [find?_updateQty]
  cases hf : products.find? (fun p => p.id = pid) with
  | none => rw [hf] at h; simp at h
  | some p =>
    have hp : p.id = pid := by simpa using List.find?_some hf
    simp [hp]

theorem processLines_spec (cart : List CartItem) (products ps : List Product)
    (ls : List SaleLine) (billNo : Nat) (discAmt : ℚ) (t : Nat) (uid : Option Nat)
    (pm : String) (first : Bool)
    (h : processLines products cart billNo discAmt t uid pm first = some (ps, ls)) :
    ls.length = cart.length ∧
    (∀ l ∈ ls, l.bill_identifier = billNo) ∧
    ∀ pid, stockOf ps pid = stockOf products pid -
      ((cart.filter (fun i => i.id = pid)).map (fun i => (i.qty : Int))).sum := by
  induction cart generalizing products ps ls first with
  | nil =>
    rw [processLines] at h
    cases h
    simp
  | cons item rest ih =>
    rw [processLines] at h
    split at h
    · exact absurd h (by simp)
    · rename_i p hf
      split at h
      · exact absurd h (by simp)
      · rename_i hq
        split at h
        · exact absurd h (by simp)
        · rename_i ps0 ls0 hrec
          simp only [Option.some.injEq, Prod.mk.injEq] at h
          obtain ⟨h1, h2⟩ := h
          subst h1
          subst h2
          obtain ⟨hlen, hbill, hstock⟩ := ih _ _ _ _ hrec
          refine ⟨by simpa using hlen, ?_, ?_⟩
          · intro l hl
            rcases List.mem_cons.mp hl with h1 | h1
            · rw [h1]
            · exact hbill l h1
          · intro pid
            rw [hstock pid]
            by_cases hp : pid = item.id
            · have hsome : (products.find? (fun q => q.id = item.id)).isSome = true := by
                rw [hf]; rfl
              rw [hp, stockOf_updateQty_self products item.id _ hsome]
              simp only [List.filter_cons, decide_eq_true_eq, if_pos rfl, if_true,
                List.map_cons, List.sum_cons]
              ring
            · rw [stockOf_updateQty_ne products item.id _ pid hp]
              have hne : ¬ (item.id = pid) := fun hc => hp hc.symm
              simp [List.filter_cons, hne]

theorem gnbn_ok_advances (s : Option Nat) :
    (get_next_bill_number s .ok).2 = some ((get_next_bill_number s .ok).1) := by
  cases s <;> rfl

theorem gnbn_fail_keeps_state (s : Option Nat) (o : DbOutcome)
    (h : ¬ o = DbOutcome.ok) : (get_next_bill_number s o).2 = s := by
  cases o with
  | ok => exact absurd rfl h
  | failEarly => rfl
  | failLate => rfl

/-- A cart asking for 2 widgets — within the 5 in stock. -/
def smallCart : List CartItem := [⟨1, "100000000001", "Widget", 10, 2⟩]

/-- A store whose counter sits at `5` (so the next issued number is `6`). -/
def counterAtFiveStore : DB := ⟨[widgetProduct], [], [], some 5, [1]⟩

/-- `counterAtFiveStore` after a checkout whose bill-number draw failed at the
write: `get_next_bill_number` swallows the error and returns the fallback `6`,
and the checkout commits under it. -/
def checkoutAfterFailedDraw : DB :=
  (billing_checkout counterAtFiveStore smallCart none "Cash" 3 none .failLate).1

/-- `checkoutAfterFailedDraw` after a second, fully committed checkout. -/
def checkoutAfterFailedDrawTwice : DB :=
  (billing_checkout checkoutAfterFailedDraw smallCart none "Cash" 4 none .ok).1

/-- C4 counterexample: with the counter at `5`, a checkout whose bill-number
draw hits a database error still commits — `get_next_bill_number` returns the
fallback `6` and the sale is recorded under it — but the counter row does not
advance (it stays at `5`), refuting "the counter row advances once"; and the
next, fully committed checkout is issued `6` again, so both bills share the
identifier `6`, refuting "all sharing the new bill identifier". -/
theorem checkout_commits_without_counter_advance :
    (billing_checkout counterAtFiveStore smallCart none "Cash" 3 none .failLate).2 = true ∧
    checkoutAfterFailedDraw.bill_sequence = some 5 ∧
    checkoutAfterFailedDraw.sales.length = 1 ∧
    (∀ l ∈ checkoutAfterFailedDraw.sales, l.bill_identifier = 6) ∧
    (billing_checkout checkoutAfterFailedDraw smallCart none "Cash" 4 none .ok).2 = true ∧
    checkoutAfterFailedDrawTwice.sales.length = 2 ∧
    (∀ l ∈ checkoutAfterFailedDrawTwice.sales, l.bill_identifier = 6) := by
  decide

/-- C4 (amended): a successful checkout of a cart of `N` line items inserts
exactly `N` sale lines, all carrying the bill identifier returned by the
sequence draw, and every product's stock afterwards equals its stock before
minus the quantities sold for it, summed over the bill's lines for that
product.  When the draw's own transaction commits, that identifier is the
newly issued number and the counter advances once to it; but if the draw hits
a database error, the checkout still commits under the fallback number, the
counter does not advance, and the identifier can repeat an earlier bill's —
see the counterexample. -/
theorem checkout_success_postcondition (db db' : DB) (cart : List CartItem)
    (disc : Option Discount) (pm : String) (t : Nat) (uid : Option Nat) (draw : DbOutcome)
    (h : billing_checkout db cart disc pm t uid draw = (db', true)) :
    ∃ newLines : List SaleLine,
      db'.sales = db.sales ++ newLines ∧
      newLines.length = cart.length ∧
      (∀ l ∈ newLines, l.bill_identifier = (get_next_bill_number db.bill_sequence draw).1) ∧
      db'.bill_sequence = (get_next_bill_number db.bill_sequence draw).2 ∧
      (draw = DbOutcome.ok →
        db'.bill_sequence = some ((get_next_bill_number db.bill_sequence draw).1)) ∧
      (¬ draw = DbOutcome.ok → db'.bill_sequence = db.bill_sequence) ∧
      (∀ pid, stockOf db'.products pid = stockOf db.products pid -
        ((cart.filter (fun i => i.id = pid)).map (fun i => (i.qty : Int))).sum) := by
  simp only [billing_checkout] at h
  split at h
  · exact absurd (congrArg Prod.snd h) (by simp)
  · split at h
    · exact absurd (congrArg Prod.snd h) (by simp)
    · split at h
      · exact absurd (congrArg Prod.snd h) (by simp)
      · rename_i discAmt hd
        split at h
        · exact absurd (congrArg Prod.snd h) (by simp)
        · rename_i ps0 ls0 hrec
          simp only [Prod.mk.injEq] at h
          obtain ⟨hdb, -⟩ := h
          subst hdb
          obtain ⟨hlen, hbill, hstock⟩ :=
            processLines_spec cart db.products ps0 ls0 _ _ t uid pm true hrec
          refine ⟨ls0, rfl, hlen, hbill, rfl, ?_, ?_, hstock⟩
          · intro ho
            subst ho
            exact gnbn_ok_advances db.bill_sequence
          · intro ho
            exact gnbn_fail_keeps_state db.bill_sequence draw ho

/-- The store after successfully checking out `smallCart`. -/
def widgetStoreSold : DB := (billing_checkout widgetStore smallCart none "Cash" 3 none .ok).1

theorem checkout_success_postcondition_witness :
    billing_checkout widgetStore smallCart none "Cash" 3 none .ok =
      (widgetStoreSold, true) ∧
    (∃ newLines : List SaleLine,
      widgetStoreSold.sales = widgetStore.sales ++ newLines ∧
      newLines.length = smallCart.length ∧
      (∀ l ∈ newLines,
        l.bill_identifier = (get_next_bill_number widgetStore.bill_sequence .ok).1) ∧
      widgetStoreSold.bill_sequence = (get_next_bill_number widgetStore.bill_sequence .ok).2 ∧
      (DbOutcome.ok = DbOutcome.ok →
        widgetStoreSold.bill_sequence =
          some ((get_next_bill_number widgetStore.bill_sequence .ok).1)) ∧
      (¬ DbOutcome.ok = DbOutcome.ok →
        widgetStoreSold.bill_sequence = widgetStore.bill_sequence) ∧
      (∀ pid, stockOf widgetStoreSold.products pid = stockOf widgetStore.products pid -
        ((smallCart.filter (fun i => i.id = pid)).map (fun i => (i.qty : Int))).sum)) :=
  ⟨by decide,
    checkout_success_postcondition widgetStore widgetStoreSold smallCart none "Cash" 3 none
      .ok (by decide)⟩

/-! ## Returns transaction (claim C5) -/

/-- C5: a valid return (existing product, positive quantity, nonnegative
refund price) that commits inserts exactly one return record and raises the
product's stock by the returned quantity, while leaving the sales rows alone;
and if a storage error strikes inside the transaction, the whole transaction
rolls back — neither the record nor the stock increment persists. -/
theorem return_order_postcondition (db : DB) (pid : Nat) (q : Int) (price : ℚ)
    (reason : Option String) (obill : Option Nat) (date : Nat)
    (hp : (db.products.find? (fun p => p.id = pid)).isSome = true)
    (hq : 0 < q) (hpr : 0 ≤ price) :
    (return_order db pid q price reason obill date false).1.returns =
      db.returns ++ [⟨pid, q, price, date, reason, obill⟩] ∧
    (return_order db pid q price reason obill date false).2 = true ∧
    stockOf (return_order db pid q price reason obill date false).1.products pid =
      stockOf db.products pid + q ∧
    (return_order db pid q price reason obill date false).1.sales = db.sales ∧
    return_order db pid q price reason obill date true = (db, false) := by
  have h1 : ¬ (db.products.find? (fun p => p.id = pid)).isNone = true := by
    cases hf : db.products.find? (fun p => p.id = pid) with
    | none => rw [hf] at hp; exact absurd hp (by simp)
    | some p0 => simp
  have h2 : ¬ q ≤ 0 := by omega
  have h3 : ¬ price < 0 := not_lt.mpr hpr
  unfold return_order
  rw [if_neg h1, if_neg h2, if_neg h3, if_neg h1, if_neg h2, if_neg h3, if_pos rfl]
  exact ⟨rfl, rfl, stockOf_updateQty_self db.products pid q hp, rfl, rfl⟩

theorem return_order_postcondition_witness :
    ((widgetStore.products.find? (fun p => p.id = 1)).isSome = true ∧
      (0 : Int) < 2 ∧ (0 : ℚ) ≤ 9) ∧
    ((return_order widgetStore 1 2 9 none none 4 false).1.returns =
        widgetStore.returns ++ [⟨1, 2, 9, 4, none, none⟩] ∧
      (return_order widgetStore 1 2 9 none none 4 false).2 = true ∧
      stockOf (return_order widgetStore 1 2 9 none none 4 false).1.products 1 =
        stockOf widgetStore.products 1 + 2 ∧
      (return_order widgetStore 1 2 9 none none 4 false).1.sales = widgetStore.sales ∧
      return_order widgetStore 1 2 9 none none 4 true = (widgetStore, false)) :=
  ⟨⟨by decide, by decide, by decide⟩,
    return_order_postcondition widgetStore 1 2 9 none none 4 (by decide) (by decide)
      (by decide)⟩

/-! ## Product deletion (claim C9) -/

/-- C9: a deletion attempt for a product that has at least one sale or return
record fails and leaves the whole store — in particular the product row —
unchanged; when the product has no sale and no return history the row is
deleted. -/
theorem delete_product_spec (db : DB) (pid : Nat) (p : Product)
    (hp : db.products.find? (fun q => q.id = pid) = some p) :
    ((0 < db.sales.countP (fun s => s.product_id = pid) ∨
      0 < db.returns.countP (fun r => r.product_id = pid)) →
        delete_product db pid = db ∧ p ∈ (delete_product db pid).products) ∧
    (db.sales.countP (fun s => s.product_id = pid) = 0 ∧
      db.returns.countP (fun r => r.product_id = pid) = 0 →
        (delete_product db pid).products = db.products.filter (fun q => ¬ q.id = pid)) := by
  constructor
  · intro hhist
    have heq : delete_product db pid = db := by
      unfold delete_product
      rw [hp]
      rw [if_pos hhist]
    refine ⟨heq, ?_⟩
    rw [heq]
    exact List.mem_of_find?_eq_some hp
  · intro ⟨hs, hr⟩
    unfold delete_product
    rw [hp]
    rw [if_neg (by omega)]

/-- A store in which the widget has one recorded sale line. -/
def storeWithHistory : DB :=
  ⟨[widgetProduct], [⟨1, 1, 2, 10, 3, none, 0, "Cash"⟩], [], some 1, [1]⟩

theorem delete_product_spec_witness :
    storeWithHistory.products.find? (fun q => q.id = 1) = some widgetProduct ∧
    (((0 < storeWithHistory.sales.countP (fun s => s.product_id = 1) ∨
        0 < storeWithHistory.returns.countP (fun r => r.product_id = 1)) →
          delete_product storeWithHistory 1 = storeWithHistory ∧
          widgetProduct ∈ (delete_product storeWithHistory 1).products) ∧
      (storeWithHistory.sales.countP (fun s => s.product_id = 1) = 0 ∧
        storeWithHistory.returns.countP (fun r => r.product_id = 1) = 0 →
          (delete_product storeWithHistory 1).products =
            storeWithHistory.products.filter (fun q => ¬ q.id = 1))) :=
  ⟨by decide, delete_product_spec storeWithHistory 1 widgetProduct (by decide)⟩

/-! ## Stock nonnegativity invariant (claim C3) -/

theorem map_id_of_preserve (l : List Product) (f : Product → Product)
    (h : ∀ p, (f p).id = p.id) :
    (l.map f).map (fun p => p.id) = l.map (fun p => p.id) := by
  rw [List.map_map]
  exact List.map_congr_left (fun p _ => h p)

theorem map_id_updateQty (products : List Product) (pid : Nat) (delta : Int) :
    (updateQty products pid delta).map (fun p => p.id) =
      products.map (fun p => p.id) := by
  unfold updateQty
  rw [List.map_map]
  refine List.map_congr_left ?_
  intro p _
  by_cases h : p.id = pid <;> simp [h]

theorem find?_unique_of_nodup (l : List Product) (x : Nat) (p0 q : Product)
    (hnd : (l.map (fun p => p.id)).Nodup)
    (hf : l.find? (fun p => p.id = x) = some p0)
    (hq : q ∈ l) (hqx : q.id = x) : q = p0 := by
  induction l with
  | nil => simp at hq
  | cons a l ih =>
    rw [List.map_cons, List.nodup_cons] at hnd
    by_cases ha : a.id = x
    · rw [List.find?_cons_of_pos _ (by simpa using ha)] at hf
      injection hf with hap
      rcases List.mem_cons.mp hq with h | h
      · rw [h]; exact hap
      · exfalso
        apply hnd.1
        have hax : a.id = q.id := by rw [ha, hqx]
        rw [hax]
        exact List.mem_map_of_mem (fun p => p.id) h
    · rw [List.find?_cons_of_neg _ (by simpa using ha)] at hf
      rcases List.mem_cons.mp hq with h | h
      · exact absurd (h ▸ hqx) ha
      · exact ih hnd.2 hf h

theorem processLines_map_id (cart : List CartItem) (products ps : List Product)
    (ls : List SaleLine) (billNo : Nat) (discAmt : ℚ) (t : Nat) (uid : Option Nat)
    (pm : String) (first : Bool)
    (h : processLines products cart billNo discAmt t uid pm first = some (ps, ls)) :
    ps.map (fun p => p.id) = products.map (fun p => p.id) := by
  induction cart generalizing products ps ls first with
  | nil => rw [processLines] at h; cases h; rfl
  | cons item rest ih =>
    rw [processLines] at h
    split at h
    · exact absurd h (by simp)
    · split at h
      · exact absurd h (by simp)
      · split at h
        · exact absurd h (by simp)
        · rename_i ps0 ls0 hrec
          simp only [Option.some.injEq, Prod.mk.injEq] at h
          obtain ⟨h1, -⟩ := h
          subst h1
          rw [ih _ _ _ _ hrec, map_id_updateQty]

theorem processLines_nonneg (cart : List CartItem) (products ps : List Product)
    (ls : List SaleLine) (billNo : Nat) (discAmt : ℚ) (t : Nat) (uid : Option Nat)
    (pm : String) (first : Bool)
    (h : processLines products cart billNo discAmt t uid pm first = some (ps, ls))
    (hnn : ∀ p ∈ products, 0 ≤ p.quantity)
    (hnd : (products.map (fun p => p.id)).Nodup) :
    ∀ p ∈ ps, 0 ≤ p.quantity := by
  induction cart generalizing products ps ls first with
  | nil => rw [processLines] at h; cases h; exact hnn
  | cons item rest ih =>
    rw [processLines] at h
    split at h
    · exact absurd h (by simp)
    · rename_i p hf
      split at h
      · exact absurd h (by simp)
      · rename_i hq
        split at h
        · exact absurd h (by simp)
        · rename_i ps0 ls0 hrec
          simp only [Option.some.injEq, Prod.mk.injEq] at h
          obtain ⟨h1, -⟩ := h
          subst h1
          refine ih _ _ _ _ hrec ?_ ?_
          · intro p1 hp1
            unfold updateQty at hp1
            rcases List.mem_map.mp hp1 with ⟨p2, hp2, hp2eq⟩
            by_cases hid : p2.id = item.id
            · rw [← hp2eq, if_pos hid]
              have : p2 = p := find?_unique_of_nodup products item.id p p2 hnd hf hp2 hid
              subst this
              simp only []
              omega
            · rw [← hp2eq, if_neg hid]
              exact hnn p2 hp2
          · rw [map_id_updateQty]; exact hnd

theorem mem_le_foldr_max (l : List Nat) (a : Nat) (h : a ∈ l) :
    a ≤ l.foldr max 0 := by
  induction l with
  | nil => simp at h
  | cons b l ih =>
    rcases List.mem_cons.mp h with h1 | h1
    · subst h1
      simp only [List.foldr_cons]
      omega
    · have := ih h1
      simp only [List.foldr_cons]
      omega

theorem billing_checkout_inv (db : DB) (cart : List CartItem) (disc : Option Discount)
    (pm : String) (t : Nat) (uid : Option Nat) (draw : DbOutcome)
    (h1 : stockNonneg db) (h2 : idsNodup db) :
    stockNonneg (billing_checkout db cart disc pm t uid draw).1 ∧
    idsNodup (billing_checkout db cart disc pm t uid draw).1 := by
  simp only [billing_checkout]
  split
  · exact ⟨h1, h2⟩
  · split
    · exact ⟨h1, h2⟩
    · split
      · exact ⟨h1, h2⟩
      · split
        · exact ⟨h1, h2⟩
        · rename_i ps0 ls0 hrec
          refine ⟨fun p hp => ?_, ?_⟩
          · exact processLines_nonneg cart db.products ps0 ls0 _ _ t uid pm true hrec h1 h2
              p hp
          · show (ps0.map (fun p => p.id)).Nodup
            rw [processLines_map_id cart db.products ps0 ls0 _ _ t uid pm true hrec]
            exact h2

theorem return_order_inv (db : DB) (pid : Nat) (q : Int) (price : ℚ)
    (reason : Option String) (obill : Option Nat) (date : Nat) (e : Bool)
    (h1 : stockNonneg db) (h2 : idsNodup db) :
    stockNonneg (return_order db pid q price reason obill date e).1 ∧
    idsNodup (return_order db pid q price reason obill date e).1 := by
  unfold return_order
  split
  · exact ⟨h1, h2⟩
  · split
    · exact ⟨h1, h2⟩
    · split
      · exact ⟨h1, h2⟩
      · split
        · exact ⟨h1, h2⟩
        · rename_i hfind hq hpr he
          refine ⟨fun p hp => ?_, ?_⟩
          · rcases List.mem_map.mp hp with ⟨p2, hp2, hp2eq⟩
            have hnn := h1 p2 hp2
            by_cases hid : p2.id = pid
            · rw [← hp2eq, if_pos hid]
              simp only []
              omega
            · rw [← hp2eq, if_neg hid]
              exact hnn
          · show ((updateQty db.products pid q).map (fun p => p.id)).Nodup
            rw [map_id_updateQty]
            exact h2

theorem add_product_inv (db : DB) (name : String) (cost sell : ℚ) (qty : Int)
    (catId : Option Nat) (bc : String)
    (h1 : stockNonneg db) (h2 : idsNodup db) :
    stockNonneg (add_product db name cost sell qty catId bc).1 ∧
    idsNodup (add_product db name cost sell qty catId bc).1 := by
  unfold add_product
  split
  · exact ⟨h1, h2⟩
  · split
    · exact ⟨h1, h2⟩
    · split
      · exact ⟨h1, h2⟩
      · split
        · exact ⟨h1, h2⟩
        · rename_i hname hcost hsell hqty
          split
          · exact ⟨h1, h2⟩
          · rename_i c
            split
            · split
              · exact ⟨h1, h2⟩
              · refine ⟨fun p hp => ?_, ?_⟩
                · rcases List.mem_append.mp hp with h | h
                  · exact h1 p h
                  · rcases List.mem_singleton.mp h with rfl
                    simpa using le_of_not_lt (by exact_mod_cast hqty)
                · unfold idsNodup
                  dsimp only
                  rw [List.map_append, List.nodup_append]
                  refine ⟨h2, by simp, ?_⟩
                  intro a ha hb
                  rcases List.mem_map.mp ha with ⟨p, hp, hpeq⟩
                  have hle := mem_le_foldr_max (db.products.map (fun p => p.id)) a
                    (hpeq ▸ List.mem_map_of_mem (fun p => p.id) hp)
                  have hbb : a = nextProductId db.products := by simpa using hb
                  unfold nextProductId at hbb
                  omega
            · exact ⟨h1, h2⟩

theorem edit_product_inv (db : DB) (pid : Nat) (name : String) (cost sell : ℚ)
    (qty : Int) (catId : Option Nat)
    (h1 : stockNonneg db) (h2 : idsNodup db) :
    stockNonneg (edit_product db pid name cost sell qty catId).1 ∧
    idsNodup (edit_product db pid name cost sell qty catId).1 := by
  unfold edit_product
  split
  · exact ⟨h1, h2⟩
  · split
    · exact ⟨h1, h2⟩
    · split
      · exact ⟨h1, h2⟩
      · split
        · exact ⟨h1, h2⟩
        · rename_i hname hcost hsell hqty
          split
          · exact ⟨h1, h2⟩
          · rename_i c
            split
            · refine ⟨fun p hp => ?_, ?_⟩
              · rcases List.mem_map.mp hp with ⟨p2, hp2, hp2eq⟩
                by_cases hid : p2.id = pid
                · rw [← hp2eq, if_pos hid]
                  simpa using le_of_not_lt (by exact_mod_cast hqty)
                · rw [← hp2eq, if_neg hid]
                  exact h1 p2 hp2
              · unfold idsNodup
                dsimp only
                rw [map_id_of_preserve _ _
                  (fun p => by by_cases hid : p.id = pid <;> simp [hid])]
                exact h2
            · exact ⟨h1, h2⟩

theorem delete_product_inv (db : DB) (pid : Nat)
    (h1 : stockNonneg db) (h2 : idsNodup db) :
    stockNonneg (delete_product db pid) ∧ idsNodup (delete_product db pid) := by
  simp only [delete_product]
  split
  · exact ⟨h1, h2⟩
  · split
    · exact ⟨h1, h2⟩
    · refine ⟨fun p hp => h1 p (List.mem_of_mem_filter hp), ?_⟩
      unfold idsNodup
      dsimp only
      exact h2.sublist ((db.products.filter_sublist).map (fun p => p.id))

theorem add_category_inv (db : DB) (cid : Nat)
    (h1 : stockNonneg db) (h2 : idsNodup db) :
    stockNonneg (add_category db cid) ∧ idsNodup (add_category db cid) := by
  unfold add_category
  split
  · exact ⟨h1, h2⟩
  · exact ⟨h1, h2⟩

theorem applyOp_inv (db : DB) (op : Op)
    (h1 : stockNonneg db) (h2 : idsNodup db) :
    stockNonneg (applyOp db op) ∧ idsNodup (applyOp db op) := by
  cases op with
  | checkout cart disc pm t uid draw =>
    exact billing_checkout_inv db cart disc pm t uid draw h1 h2
  | ret pid q price reason obill date e =>
    exact return_order_inv db pid q price reason obill date e h1 h2
  | addP name cost sell qty catId bc => exact add_product_inv db name cost sell qty catId bc h1 h2
  | editP pid name cost sell qty catId =>
    exact edit_product_inv db pid name cost sell qty catId h1 h2
  | delP pid => exact delete_product_inv db pid h1 h2
  | addCat cid => exact add_category_inv db cid h1 h2

theorem applyOps_inv (ops : List Op) (db : DB)
    (h1 : stockNonneg db) (h2 : idsNodup db) :
    stockNonneg (applyOps db ops) ∧ idsNodup (applyOps db ops) := by
  induction ops generalizing db with
  | nil => exact ⟨h1, h2⟩
  | cons op ops ih =>
    have h := applyOp_inv db op h1 h2
    exact ih (applyOp db op) h.1 h.2

/-- C3: starting from any store whose product quantities are all nonnegative
(and whose product ids are distinct, as the primary key guarantees), every
state reachable by any sequence of checkouts, returns, product additions,
edits, deletions and category additions still has every product quantity
nonnegative — a successful checkout never drives stock below zero, and a
return only adds to stock. -/
theorem stock_never_negative (db : DB) (ops : List Op)
    (h1 : stockNonneg db) (h2 : idsNodup db) :
    stockNonneg (applyOps db ops) :=
  (applyOps_inv ops db h1 h2).1

theorem stock_never_negative_witness :
    (stockNonneg widgetStore ∧ idsNodup widgetStore) ∧
    stockNonneg (applyOps widgetStore
      [Op.checkout smallCart none "Cash" 3 none .ok,
        Op.ret 1 2 9 none none 4 false]) :=
  ⟨⟨by decide, by decide⟩,
    stock_never_negative widgetStore
      [Op.checkout smallCart none "Cash" 3 none .ok, Op.ret 1 2 9 none none 4 false]
      (by decide) (by decide)⟩

/-! ## Session cart (claim C10) -/

/-- The session cart produced by a sequence of cart operations, starting from
the empty cart a fresh session gets. -/
def applyCartOps (ops : List CartOp) : List CartItem :=
  ops.foldl applyCartOp []

theorem map_id_incFirstQty (cart : List CartItem) (pid : Nat) :
    (incFirstQty cart pid).map (fun i => i.id) = cart.map (fun i => i.id) := by
  induction cart with
  | nil => rfl
  | cons i rest ih =>
    rw [incFirstQty]
    by_cases h : i.id = pid
    · rw [if_pos h]; rfl
    · rw [if_neg h]
      simp only [List.map_cons]
      rw [ih]

theorem map_id_increase_cart_item (cart : List CartItem) (pid : Nat) (stock : Option Int) :
    (increase_cart_item cart pid stock).map (fun i => i.id) = cart.map (fun i => i.id) := by
  induction cart with
  | nil => rfl
  | cons i rest ih =>
    simp only [increase_cart_item]
    by_cases h : i.id = pid
    · rw [if_pos h]
      cases stock with
      | none => rfl
      | some s => by_cases hs : (i.qty : Int) < s <;> simp [hs]
    · rw [if_neg h]
      simp only [List.map_cons]
      rw [ih]

theorem map_id_decrease_sublist (cart : List CartItem) (pid : Nat) :
    List.Sublist ((decrease_cart_item cart pid).map (fun i => i.id))
      (cart.map (fun i => i.id)) := by
  induction cart with
  | nil => simp [decrease_cart_item]
  | cons i rest ih =>
    rw [decrease_cart_item]
    by_cases h : i.id = pid
    · rw [if_pos h]
      by_cases hq : i.qty ≤ 1
      · rw [if_pos hq]
        exact (List.sublist_cons_self _ _)
      · rw [if_neg hq]
        simp only [List.map_cons]
        exact List.Sublist.refl _
    · rw [if_neg h]
      simp only [List.map_cons]
      exact ih.cons₂ _

theorem cartOp_preserves_nodup (cart : List CartItem) (op : CartOp)
    (h : (cart.map (fun i => i.id)).Nodup) :
    ((applyCartOp cart op).map (fun i => i.id)).Nodup := by
  cases op with
  | add pid bc name price =>
    show ((cart_add cart pid bc name price).map (fun i => i.id)).Nodup
    unfold cart_add
    by_cases hmem : cart.any (fun i => i.id = pid)
    · rw [if_pos hmem, map_id_incFirstQty]
      exact h
    · rw [if_neg hmem, List.map_append, List.nodup_append]
      refine ⟨h, by simp, ?_⟩
      intro a ha hb
      have hb2 : a = pid := by simpa using hb
      subst hb2
      rcases List.mem_map.mp ha with ⟨i, hi, hieq⟩
      exact hmem (List.any_eq_true.mpr ⟨i, hi, by simp [hieq]⟩)
  | inc pid stock =>
    show ((increase_cart_item cart pid stock).map (fun i => i.id)).Nodup
    rw [map_id_increase_cart_item]
    exact h
  | dec pid =>
    exact h.sublist (map_id_decrease_sublist cart pid)
  | rem pid =>
    exact h.sublist ((cart.filter_sublist).map (fun i => i.id))
  | clear => simp [applyCartOp]

/-- C10: starting from the empty cart of a fresh session, any sequence of the
cart actions (scan or manual add, increase, decrease, remove, clear at
checkout) leaves the cart with pairwise-distinct product ids — an add for a
product already in the cart only bumps that entry's quantity, appending no
second entry — so the checkout loop sees each product at most once per
bill. -/
theorem session_cart_ids_nodup (ops : List CartOp) :
    ((applyCartOps ops).map (fun i => i.id)).Nodup ∧
    (∀ (cart : List CartItem) (pid : Nat) (bc name : String) (price : ℚ),
      cart.any (fun i => i.id = pid) = true →
        (cart_add cart pid bc name price).map (fun i => i.id) =
          cart.map (fun i => i.id)) := by
  constructor
  · have main : ∀ (ops : List CartOp) (cart : List CartItem),
        (cart.map (fun i => i.id)).Nodup →
          (((ops.foldl applyCartOp cart)).map (fun i => i.id)).Nodup := by
      intro ops
      induction ops with
      | nil => intro cart h; exact h
      | cons op ops ih =>
        intro cart h
        exact ih (applyCartOp cart op) (cartOp_preserves_nodup cart op h)
    exact main ops [] (by simp)
  · intro cart pid bc name price hmem
    unfold cart_add
    rw [if_pos hmem, map_id_incFirstQty]

theorem session_cart_ids_nodup_witness :
    ((applyCartOps [CartOp.add 1 "b" "Widget" 10, CartOp.add 1 "b" "Widget" 10,
      CartOp.add 2 "c" "Gadget" 5]).map (fun i => i.id)).Nodup ∧
    ([(⟨1, "b", "Widget", 10, 1⟩ : CartItem)].any (fun i => i.id = 1) = true ∧
      (cart_add [⟨1, "b", "Widget", 10, 1⟩] 1 "b" "Widget" 10).map (fun i => i.id) =
        [(⟨1, "b", "Widget", 10, 1⟩ : CartItem)].map (fun i => i.id)) :=
  ⟨(session_cart_ids_nodup [CartOp.add 1 "b" "Widget" 10, CartOp.add 1 "b" "Widget" 10,
      CartOp.add 2 "c" "Gadget" 5]).1,
    ⟨by decide,
      (session_cart_ids_nodup []).2 [⟨1, "b", "Widget", 10, 1⟩] 1 "b" "Widget" 10
        (by decide)⟩⟩

/-! ## Discounted-checkout scenario (claim C7) -/

/-- A 10% percentage discount row, as `create_discount` would store it. -/
def tenPercent : Discount := ⟨1, "TEN", "percentage", 10⟩

/-- C7 (documenting the code bug): in the scenario of one bill of 2 items at
10.00 each with the 10% percentage discount applied, the spec expects a
committed sale whose range analytics read gross sales `20.00`, discounts
`2.00`, net sales `18.00`.  The code instead reads tuple index `2` of the
discount row — the `discount_type` string, a leftover of the pre-migration
`(id, name, percent)` tuple shape (see `dbfix.py`) — and evaluates
`'percentage' / 100`, raising `TypeError`; the checkout aborts with the store
unchanged, no sale line exists, and the analytics over any containing range
report `0.00` gross, `0.00` discounts and `0.00` net. -/
theorem discounted_checkout_aborts_on_type_error :
    computeBillDiscount ((smallCart.map (fun i => i.price * (i.qty : ℚ))).sum)
      (some tenPercent) = none ∧
    billing_checkout widgetStore smallCart (some tenPercent) "Cash" 3 none .ok =
      (widgetStore, false) ∧
    total_gross_sales
      (billing_checkout widgetStore smallCart (some tenPercent) "Cash" 3 none .ok).1.sales
      0 9 = 0 ∧
    total_discounts_on_bills
      (billing_checkout widgetStore smallCart (some tenPercent) "Cash" 3 none .ok).1.sales
      0 9 = 0 ∧
    total_net_sales
      (billing_checkout widgetStore smallCart (some tenPercent) "Cash" 3 none .ok).1.sales
      (billing_checkout widgetStore smallCart (some tenPercent) "Cash" 3 none .ok).1.returns
      0 9 = 0 := by
  have h : billing_checkout widgetStore smallCart (some tenPercent) "Cash" 3 none .ok =
      (widgetStore, false) := by decide
  refine ⟨rfl, h, ?_, ?_, ?_⟩ <;>
    · rw [h]
      simp [total_gross_sales, total_discounts_on_bills, total_returns_value,
        total_net_sales, widgetStore]

/-! ## Analytics discount deduplication (claim C8) -/

theorem sum_map_filter_or_disjoint {α : Type} (l : List α) (p q : α → Bool) (f : α → ℚ)
    (h : ∀ x ∈ l, ¬(p x = true ∧ q x = true)) :
    ((l.filter (fun x => p x || q x)).map f).sum =
      ((l.filter p).map f).sum + ((l.filter q).map f).sum := by
  induction l with
  | nil => simp
  | cons a l ih =>
    have hih := ih (fun x hx => h x (List.mem_cons_of_mem a hx))
    by_cases hp : p a = true <;> by_cases hq : q a = true
    · exact absurd ⟨hp, hq⟩ (h a (List.mem_cons_self a l))
    · rw [Bool.not_eq_true] at hq
      simp [List.filter_cons, hp, hq, hih]
      ring
    · rw [Bool.not_eq_true] at hp
      simp [List.filter_cons, hp, hq, hih]
      ring
    · rw [Bool.not_eq_true] at hp hq
      simp [List.filter_cons, hp, hq, hih]

theorem sum_map_filter_and_of_zero {α : Type} (l : List α) (p q : α → Bool) (f : α → ℚ)
    (h : ∀ x ∈ l, p x = true → ¬ q x = true → f x = 0) :
    ((l.filter (fun x => p x && q x)).map f).sum = ((l.filter p).map f).sum := by
  induction l with
  | nil => simp
  | cons a l ih =>
    have hih := ih (fun x hx => h x (List.mem_cons_of_mem a hx))
    by_cases hp : p a = true <;> by_cases hq : q a = true
    · simp [List.filter_cons, hp, hq, hih]
    · have hz : f a = 0 := h a (List.mem_cons_self a l) hp hq
      rw [Bool.not_eq_true] at hq
      simp [List.filter_cons, hp, hq, hih, hz]
    · rw [Bool.not_eq_true] at hp
      simp [List.filter_cons, hp, hq, hih]
    · rw [Bool.not_eq_true] at hp hq
      simp [List.filter_cons, hp, hq, hih]

theorem sum_over_bills (sales : List SaleLine) (f : SaleLine → ℚ) (B : List Nat)
    (hB : B.Nodup) :
    (B.map (fun b => ((sales.filter (fun s => s.bill_identifier = b)).map f).sum)).sum =
      ((sales.filter (fun s => decide (s.bill_identifier ∈ B))).map f).sum := by
  induction B with
  | nil => simp
  | cons b B ih =>
    rw [List.nodup_cons] at hB
    rw [List.map_cons, List.sum_cons, ih hB.2]
    have hsplit := sum_map_filter_or_disjoint sales
      (fun s => decide (s.bill_identifier = b))
      (fun s => decide (s.bill_identifier ∈ B)) f
      (by
        intro s _ hc
        rw [decide_eq_true_eq, decide_eq_true_eq] at hc
        exact hB.1 (hc.1 ▸ hc.2))
    rw [← hsplit]
    refine congrArg _ (congrArg _ (List.filter_congr ?_))
    intro s _
    simp [List.mem_cons]

theorem bill_mem_dedup_iff_inRange (sales : List SaleLine) (lo hi : Nat)
    (hdate : ∀ s ∈ sales, ∀ t ∈ sales, s.bill_identifier = t.bill_identifier →
      s.sale_date = t.sale_date)
    (s : SaleLine) (hs : s ∈ sales) :
    decide (s.bill_identifier ∈
        ((sales.filter (fun u => inRange lo hi u.sale_date)).map
          (fun u => u.bill_identifier)).dedup) =
      inRange lo hi s.sale_date := by
  by_cases hr : inRange lo hi s.sale_date = true
  · rw [hr, decide_eq_true_eq]
    rw [List.mem_dedup]
    refine List.mem_map_of_mem (fun u => u.bill_identifier) (List.mem_filter.mpr ⟨hs, ?_⟩)
    exact hr
  · rw [Bool.not_eq_true] at hr
    rw [hr, decide_eq_false_iff_not]
    intro hmem
    rw [List.mem_dedup] at hmem
    rcases List.mem_map.mp hmem with ⟨t, ht, hteq⟩
    have htr := (List.mem_filter.mp ht).2
    have hts := (List.mem_filter.mp ht).1
    have := hdate s hs t hts hteq.symm
    rw [this] at hr
    rw [htr] at hr
    exact Bool.noConfusion hr

/-- C8: under the shape the checkout code gives the `sales` table — discount
amounts nonnegative, at most one sale line per bill carrying a positive
discount (the code attaches the bill discount to the first line only), and all
lines of a bill sharing one sale date — the analytics figure
`total_discounts_on_bills` equals the sum, over the distinct bill identifiers
with sales in the range, of the bill-level discount amount recorded for that
bill: each bill's discount is counted exactly once, not once per sale
line. -/
theorem analytics_discount_counts_each_bill_once (sales : List SaleLine) (lo hi : Nat)
    (hnn : ∀ s ∈ sales, 0 ≤ s.discount_applied_to_bill)
    (hone : sales.Pairwise (fun s t => s.bill_identifier = t.bill_identifier →
      0 < s.discount_applied_to_bill → 0 < t.discount_applied_to_bill → False))
    (hdate : ∀ s ∈ sales, ∀ t ∈ sales, s.bill_identifier = t.bill_identifier →
      s.sale_date = t.sale_date) :
    total_discounts_on_bills sales lo hi = spec_total_discounts sales lo hi := by
  have hpairs : ((sales.filter (fun s =>
      inRange lo hi s.sale_date && decide (0 < s.discount_applied_to_bill))).map
        (fun s => (s.bill_identifier, s.discount_applied_to_bill))).Nodup := by
    have hp1 : (sales.filter (fun s => inRange lo hi s.sale_date &&
        decide (0 < s.discount_applied_to_bill))).Pairwise
        (fun a b => (a.bill_identifier, a.discount_applied_to_bill) ≠
          (b.bill_identifier, b.discount_applied_to_bill)) := by
      refine List.Pairwise.imp_of_mem ?_ (hone.sublist (List.filter_sublist sales))
      intro a b ha hb r heq
      have hga := (List.mem_filter.mp ha).2
      have hgb := (List.mem_filter.mp hb).2
      rw [Bool.and_eq_true, decide_eq_true_eq] at hga hgb
      exact r (congrArg Prod.fst heq) hga.2 hgb.2
    exact List.Pairwise.map _ (fun a b h => h) hp1
  unfold total_discounts_on_bills
  rw [hpairs.dedup, List.map_map]
  have hlhs : ((sales.filter (fun s =>
        inRange lo hi s.sale_date && decide (0 < s.discount_applied_to_bill))).map
      ((fun x : Nat × ℚ => x.2) ∘ (fun s => (s.bill_identifier, s.discount_applied_to_bill)))).sum =
      ((sales.filter (fun s => inRange lo hi s.sale_date)).map
        (fun s => s.discount_applied_to_bill)).sum := by
    refine sum_map_filter_and_of_zero sales _ _ _ ?_
    intro s hs _ hq
    rw [decide_eq_true_eq] at hq
    push_neg at hq
    show s.discount_applied_to_bill = 0
    have := hnn s hs
    linarith
  rw [hlhs]
  unfold spec_total_discounts spec_bill_discount
  rw [sum_over_bills sales (fun s => s.discount_applied_to_bill) _
    (List.nodup_dedup _)]
  refine congrArg _ (congrArg _ (List.filter_congr ?_))
  intro s hs
  exact (bill_mem_dedup_iff_inRange sales lo hi hdate s hs).symm

/-- Two bills as checkout records them: bill `1` (two lines, dated day 3,
discount `2` carried on the first line only) and bill `2` (one undiscounted
line, dated day 4). -/
def twoBillSales : List SaleLine :=
  [⟨1, 1, 1, 10, 3, none, 2, "Cash"⟩, ⟨1, 2, 1, 5, 3, none, 0, "Cash"⟩,
   ⟨2, 1, 2, 10, 4, none, 0, "Card"⟩]

theorem analytics_discount_counts_each_bill_once_witness :
    ((∀ s ∈ twoBillSales, 0 ≤ s.discount_applied_to_bill) ∧
      twoBillSales.Pairwise (fun s t => s.bill_identifier = t.bill_identifier →
        0 < s.discount_applied_to_bill → 0 < t.discount_applied_to_bill → False) ∧
      (∀ s ∈ twoBillSales, ∀ t ∈ twoBillSales,
        s.bill_identifier = t.bill_identifier → s.sale_date = t.sale_date)) ∧
    total_discounts_on_bills twoBillSales 0 9 = spec_total_discounts twoBillSales 0 9 :=
  ⟨⟨by decide, by decide, by decide⟩,
    analytics_discount_counts_each_bill_once twoBillSales 0 9 (by decide) (by decide)
      (by decide)⟩
